import Mathlib

/-!
Verification development for the CiderPress PAW atom utilities
(`ciderpress/gpaw/fast_atom_utils.py`).

The Python source is shallowly embedded in Lean 4: pure numerical code is
translated to functions over `ℚ` (exact arithmetic stands in for IEEE
floating point) or over `ℝ` where the source takes real logarithms, and
fallible code (Python exceptions) is translated to `Except`-valued
functions.  Dense arrays become functions out of `Fin n` or `ℕ` with sums
over `Finset.range`.  Routines of the repository that are imported by the
source file but whose bodies live outside the provided tree
(`ciderpress.dft.*`, `ciderpress.gpaw.fit_paw_gauss_pot`, the `libcider` C
library, and `scipy`'s Cholesky driver) are modelled from the
specification; each such definition carries a doc comment saying so.
-/

namespace CiderPress

/-- Python runtime errors that the embedded code can raise.  `attributeError`
models reading an instance attribute that was never assigned,
`keyError` a failed dict lookup, `setupError` a failed Cholesky
factorization (`scipy.linalg.cho_factor` raising `LinAlgError`),
`nameError` an unbound global/local name, and `typeError` an invalid
value (e.g. `np.zeros` given an `Ellipsis` dimension). -/
inductive PyErr where
  | attributeError
  | keyError
  | setupError
  | nameError
  | typeError
  | assertionError
  deriving DecidableEq, Repr

/-! ## C5: hardcoded per-species shell tables

`PAugSetup.from_setup` and `PSmoothSetup.from_setup` each select hardcoded
lists `nlist_j`, `llist_j`, `nbas_lst` from the atomic number `Z`.
The four `PAugSetup` tables and the three `PSmoothSetup` tables below are
transcribed verbatim from the source. -/

/-- One hardcoded shell table: radial indices `nlist_j`, angular momenta
`llist_j`, and per-`l` basis counts `nbas_lst`. -/
structure ShellTable where
  nlist_j : List ℕ
  llist_j : List ℕ
  nbas_lst : List ℕ
  deriving DecidableEq, Repr

/-- Shell-table selection in `PAugSetup.from_setup`
(`fast_atom_utils.py`, branching on `setup.Z`). -/
def paugTable (Z : ℕ) : ShellTable :=
  if 1000 < Z then
    ⟨[0, 2, 4, 6, 8, 1, 3, 5, 7, 2, 4, 6, 8, 3, 5, 7, 4, 6, 8],
     [0, 0, 0, 0, 0, 1, 1, 1, 1, 2, 2, 2, 2, 3, 3, 3, 4, 4, 4],
     [5, 4, 4, 3, 3]⟩
  else if 18 < Z then
    ⟨[0, 2, 4, 6, 1, 3, 5, 2, 4, 6, 3, 5, 4, 6],
     [0, 0, 0, 0, 1, 1, 1, 2, 2, 2, 3, 3, 4, 4],
     [4, 3, 3, 2, 2]⟩
  else if 0 < Z then
    ⟨[0, 2, 4, 1, 3, 2, 4, 3, 4],
     [0, 0, 0, 1, 1, 2, 2, 3, 4],
     [3, 2, 2, 1, 1]⟩
  else
    ⟨[0, 2, 1, 2], [0, 0, 1, 2], [2, 1, 1]⟩

/-- Shell-table selection in `PSmoothSetup.from_setup`
(`fast_atom_utils.py`, branching on `setup.Z`).  Note: the source has only
three branches here, with thresholds `Z > 100` and `Z > 0`. -/
def psmoothTable (Z : ℕ) : ShellTable :=
  if 100 < Z then
    ⟨[0, 2, 4, 6, 1, 3, 5, 2, 4, 6, 3, 5, 4, 6],
     [0, 0, 0, 0, 1, 1, 1, 2, 2, 2, 3, 3, 4, 4],
     [4, 3, 3, 2, 2]⟩
  else if 0 < Z then
    ⟨[0, 2, 4, 1, 3, 2, 4, 3, 4],
     [0, 0, 0, 1, 1, 2, 2, 3, 4],
     [3, 2, 2, 1, 1]⟩
  else
    ⟨[0, 2, 1, 2], [0, 0, 1, 2], [2, 1, 1]⟩

/-- Number of distinct radial shells in a table. -/
def ShellTable.shellCount (t : ShellTable) : ℕ := t.nlist_j.length

/-- Largest angular momentum appearing in a table. -/
def ShellTable.lmaxOf (t : ShellTable) : ℕ := t.llist_j.foldr max 0

/-- C5 counterexample: the claim says both constructors select their tables
by the thresholds `Z > 1000`, `Z > 18`, `Z > 0`, else.  That would make the
`PSmoothSetup` selection constant on the bucket `18 < Z ≤ 1000`, but the
source branches at `Z > 100`: `Z = 19` and `Z = 500` land in the same
claimed bucket yet receive different tables. -/
theorem psmooth_table_not_selected_by_claimed_thresholds :
    (18 < 19 ∧ 19 ≤ 1000 ∧ 18 < 500 ∧ 500 ≤ 1000) ∧
      psmoothTable 19 ≠ psmoothTable 500 := by
  decide

/-- C5 (amended): `PAugSetup.from_setup` selects its tables by the
thresholds `Z > 1000`, `Z > 18`, `Z > 0`, else, while
`PSmoothSetup.from_setup` uses only the three thresholds `Z > 100`,
`Z > 0`, else (its top table equals `PAugSetup`'s `Z > 18` table); within
each constructor the selection is constant on every threshold bucket,
adjacent buckets receive distinct tables, and a larger `Z` receives at
least as many shells and at least as high an angular momentum. -/
theorem shell_tables_selected_by_thresholds :
    (∀ Z Z' : ℕ,
      (1000 < Z → 1000 < Z' → paugTable Z = paugTable Z') ∧
      (18 < Z → Z ≤ 1000 → 18 < Z' → Z' ≤ 1000 → paugTable Z = paugTable Z') ∧
      (0 < Z → Z ≤ 18 → 0 < Z' → Z' ≤ 18 → paugTable Z = paugTable Z') ∧
      (Z = 0 → Z' = 0 → paugTable Z = paugTable Z') ∧
      (100 < Z → 100 < Z' → psmoothTable Z = psmoothTable Z') ∧
      (0 < Z → Z ≤ 100 → 0 < Z' → Z' ≤ 100 → psmoothTable Z = psmoothTable Z')) ∧
    (paugTable 1001 ≠ paugTable 1000 ∧ paugTable 19 ≠ paugTable 18 ∧
      paugTable 1 ≠ paugTable 0 ∧ psmoothTable 101 ≠ psmoothTable 100 ∧
      psmoothTable 1 ≠ psmoothTable 0 ∧
      psmoothTable 101 = paugTable 19) ∧
    (∀ Z Z' : ℕ, Z ≤ Z' →
      (paugTable Z).shellCount ≤ (paugTable Z').shellCount ∧
      (paugTable Z).lmaxOf ≤ (paugTable Z').lmaxOf ∧
      (psmoothTable Z).shellCount ≤ (psmoothTable Z').shellCount ∧
      (psmoothTable Z).lmaxOf ≤ (psmoothTable Z').lmaxOf) := by
  refine ⟨fun Z Z' => ?_, by decide, fun Z Z' h => ?_⟩
  · refine ⟨fun h h' => ?_, fun h1 h2 h1' h2' => ?_, fun h1 h2 h1' h2' => ?_,
      fun h h' => ?_, fun h h' => ?_, fun h1 h2 h1' h2' => ?_⟩ <;>
      simp only [paugTable, psmoothTable] <;> split_ifs <;> first | rfl | omega
  · have hp : ∀ W W' : ℕ, W ≤ W' →
        (paugTable W).shellCount ≤ (paugTable W').shellCount ∧
        (paugTable W).lmaxOf ≤ (paugTable W').lmaxOf := by
      intro W W' hW
      simp only [paugTable]
      split_ifs <;>
        first
          | exact ⟨by decide, by decide⟩
          | omega
    have hs : ∀ W W' : ℕ, W ≤ W' →
        (psmoothTable W).shellCount ≤ (psmoothTable W').shellCount ∧
        (psmoothTable W).lmaxOf ≤ (psmoothTable W').lmaxOf := by
      intro W W' hW
      simp only [psmoothTable]
      split_ifs <;>
        first
          | exact ⟨by decide, by decide⟩
          | omega
    exact ⟨(hp Z Z' h).1, (hp Z Z' h).2, (hs Z Z' h).1, (hs Z Z' h).2⟩

/-- Witness for C5 (amended) at concrete atomic numbers: bucket constancy
of `psmoothTable` on `(100, ∞)` at `Z = 101, 102`, and shell-count
monotonicity at `Z = 1 ≤ 2`. -/
theorem shell_tables_selected_by_thresholds_witness :
    (100 < 101 ∧ 100 < 102 ∧ (1 : ℕ) ≤ 2) ∧
      (psmoothTable 101 = psmoothTable 102 ∧
        (paugTable 1).shellCount ≤ (paugTable 2).shellCount) :=
  ⟨⟨by decide, by decide, by decide⟩,
    (shell_tables_selected_by_thresholds.1 101 102).2.2.2.2.1 (by decide)
      (by decide),
    (shell_tables_selected_by_thresholds.2.2 1 2 (by decide)).1⟩

/-! ## C3: `initialize_more_things` exponent-ladder arithmetic

`FastPASDWCiderKernel.initialize_more_things` sets `encut = setup.Z**2 * 20`
and derives the per-atom interpolation count `Nalpha` and top exponent
`encut0`.  The source asserts `encut0 >= encut - 1e-6` and
`encut0 / lambd < encut` in the else-branch; the claim says those
assertions always hold.  Floating-point `np.log`, `np.ceil`, `np.max`,
`np.min` are modelled by their exact real counterparts. -/

/-- `np.max` over a list (the source always applies it to the nonempty
array `self.bas_exp_fit`). -/
noncomputable def amaxL : List ℝ → ℝ
  | [] => 0
  | x :: xs => xs.foldl max x

/-- `np.min` over a list (`self._amin = np.min(self.bas_exp_fit)`). -/
noncomputable def aminL : List ℝ → ℝ
  | [] => 0
  | x :: xs => xs.foldl min x

/-- `encut = setup.Z ** 2 * 20` from `initialize_more_things`. -/
noncomputable def encutOf (Z : ℕ) : ℝ := (Z : ℝ) ^ 2 * 20

/-- The `Nalpha` computed by `initialize_more_things`: the length of
`bas_exp_fit` when the global basis already covers `encut`, else
`int(np.ceil(np.log(encut / amin) / np.log(lambd))) + 1`. -/
noncomputable def ladderNalpha (bas : List ℝ) (lambd : ℝ) (Z : ℕ) : ℕ :=
  if encutOf Z - 1e-7 ≤ amaxL bas then bas.length
  else (⌈Real.log (encutOf Z / aminL bas) / Real.log lambd⌉).toNat + 1

/-- The top exponent `encut0` computed by `initialize_more_things`:
`max(bas_exp_fit)` in the covered branch, else
`amin * lambd ** (Nalpha - 1)`. -/
noncomputable def ladderEncut0 (bas : List ℝ) (lambd : ℝ) (Z : ℕ) : ℝ :=
  if encutOf Z - 1e-7 ≤ amaxL bas then amaxL bas
  else aminL bas * lambd ^ (ladderNalpha bas lambd Z - 1)

/-- C3: `initialize_more_things` sets `encut = Z^2 * 20`; when
`encut - 1e-7 ≤ max(bas_exp_fit)` it keeps the global ladder
(`Nalpha = len(bas_exp_fit)`, top exponent `max(bas_exp_fit)`); otherwise
`Nalpha = ceil(log(encut / amin) / log(lambd)) + 1` and the resulting top
exponent `encut0 = amin * lambd^(Nalpha - 1)` satisfies the source's two
assertions `encut0 ≥ encut - 1e-6` and `encut0 / lambd < encut`, i.e. the
ladder covers `encut` with the smallest sufficient `Nalpha`. -/
theorem ladder_covers_encut (bas : List ℝ) (lambd : ℝ) (Z : ℕ)
    (hmin : 0 < aminL bas) (hmm : aminL bas ≤ amaxL bas) (hl : 1 < lambd) :
    encutOf Z = (Z : ℝ) ^ 2 * 20 ∧
    (encutOf Z - 1e-7 ≤ amaxL bas →
      ladderNalpha bas lambd Z = bas.length ∧
      ladderEncut0 bas lambd Z = amaxL bas) ∧
    (amaxL bas < encutOf Z - 1e-7 →
      ladderNalpha bas lambd Z =
        (⌈Real.log (encutOf Z / aminL bas) / Real.log lambd⌉).toNat + 1 ∧
      ladderEncut0 bas lambd Z =
        aminL bas * lambd ^ (ladderNalpha bas lambd Z - 1) ∧
      encutOf Z - 1e-6 ≤ ladderEncut0 bas lambd Z ∧
      ladderEncut0 bas lambd Z / lambd < encutOf Z) := by
  refine ⟨rfl, fun h => ?_, fun h => ?_⟩
  · rw [ladderNalpha, ladderEncut0, if_pos h, if_pos h]
    exact ⟨rfl, rfl⟩
  · have hcond : ¬(encutOf Z - 1e-7 ≤ amaxL bas) := not_le.mpr h
    have hl0 : (0 : ℝ) < lambd := zero_lt_one.trans hl
    have h7 : (0 : ℝ) < 1e-7 := by norm_num
    have haE : aminL bas < encutOf Z := by linarith
    have hE0 : 0 < encutOf Z := hmin.trans haE
    have hEa1 : 1 < encutOf Z / aminL bas := (one_lt_div hmin).mpr haE
    have hlogEa : 0 < Real.log (encutOf Z / aminL bas) := Real.log_pos hEa1
    have hlogl : 0 < Real.log lambd := Real.log_pos hl
    have hx0 : 0 < Real.log (encutOf Z / aminL bas) / Real.log lambd :=
      div_pos hlogEa hlogl
    have hceil : (0 : ℤ) < ⌈Real.log (encutOf Z / aminL bas) / Real.log lambd⌉ :=
      Int.ceil_pos.mpr hx0
    have hcast :
        ((⌈Real.log (encutOf Z / aminL bas) / Real.log lambd⌉.toNat : ℕ) : ℝ) =
          ((⌈Real.log (encutOf Z / aminL bas) / Real.log lambd⌉ : ℤ) : ℝ) := by
      exact_mod_cast congrArg (fun z : ℤ => (z : ℝ)) (Int.toNat_of_nonneg hceil.le)
    have hrx :
        lambd ^ (Real.log (encutOf Z / aminL bas) / Real.log lambd) =
          encutOf Z / aminL bas := by
      rw [Real.rpow_def_of_pos hl0, mul_comm,
        div_mul_cancel₀ _ (ne_of_gt hlogl), Real.exp_log (div_pos hE0 hmin)]
    set n : ℕ := ⌈Real.log (encutOf Z / aminL bas) / Real.log lambd⌉.toNat with hn
    have hxn : Real.log (encutOf Z / aminL bas) / Real.log lambd ≤ (n : ℝ) := by
      rw [hcast]; exact Int.le_ceil _
    have hn1x : (n : ℝ) - 1 < Real.log (encutOf Z / aminL bas) / Real.log lambd := by
      rw [hcast]
      have := Int.ceil_lt_add_one (Real.log (encutOf Z / aminL bas) / Real.log lambd)
      linarith
    have hpow : lambd ^ ((n : ℕ) : ℝ) = lambd ^ (n : ℕ) := Real.rpow_natCast lambd n
    have hEle : encutOf Z ≤ aminL bas * lambd ^ (n : ℕ) := by
      have h1 :
          lambd ^ (Real.log (encutOf Z / aminL bas) / Real.log lambd) ≤
            lambd ^ ((n : ℕ) : ℝ) :=
        (Real.rpow_le_rpow_left_iff hl).mpr hxn
      rw [hrx, hpow] at h1
      have h2 := mul_le_mul_of_nonneg_left h1 hmin.le
      rw [mul_div_cancel₀ _ (ne_of_gt hmin)] at h2
      exact h2
    have hltE : aminL bas * lambd ^ (n : ℕ) / lambd < encutOf Z := by
      have h2 :
          lambd ^ ((n : ℝ) - 1) <
            lambd ^ (Real.log (encutOf Z / aminL bas) / Real.log lambd) :=
        (Real.rpow_lt_rpow_left_iff hl).mpr hn1x
      have h3 : lambd ^ ((n : ℝ) - 1) = lambd ^ (n : ℕ) / lambd := by
        rw [Real.rpow_sub hl0, Real.rpow_one, hpow]
      rw [h3, hrx] at h2
      have h4 := mul_lt_mul_of_pos_left h2 hmin
      rw [mul_div_cancel₀ _ (ne_of_gt hmin)] at h4
      calc aminL bas * lambd ^ (n : ℕ) / lambd
          = aminL bas * (lambd ^ (n : ℕ) / lambd) := by ring
        _ < encutOf Z := h4
    have hNdef : ladderNalpha bas lambd Z = n + 1 := by
      rw [ladderNalpha, if_neg hcond]
    have hEdef : ladderEncut0 bas lambd Z = aminL bas * lambd ^ (n : ℕ) := by
      rw [ladderEncut0, if_neg hcond, hNdef, Nat.add_sub_cancel]
    have h6 : (0 : ℝ) < 1e-6 := by norm_num
    refine ⟨hNdef, ?_, ?_, ?_⟩
    · rw [hEdef, hNdef, Nat.add_sub_cancel]
    · rw [hEdef]; linarith
    · rw [hEdef]; exact hltE

/-- Witness for C3 at `bas_exp_fit = [1]`, `lambd = 2`, `Z = 1`
(`encut = 20`, so the else-branch applies). -/
theorem ladder_covers_encut_witness :
    (0 < aminL [(1 : ℝ)] ∧ aminL [(1 : ℝ)] ≤ amaxL [(1 : ℝ)] ∧ (1 : ℝ) < 2) ∧
      (amaxL [(1 : ℝ)] < encutOf 1 - 1e-7 ∧
        encutOf 1 - 1e-6 ≤ ladderEncut0 [(1 : ℝ)] 2 1 ∧
        ladderEncut0 [(1 : ℝ)] 2 1 / 2 < encutOf 1) := by
  have hbranch : amaxL [(1 : ℝ)] < encutOf 1 - 1e-7 := by
    norm_num [amaxL, encutOf]
  have h1 : (0 : ℝ) < aminL [(1 : ℝ)] := by norm_num [aminL]
  have h2 : aminL [(1 : ℝ)] ≤ amaxL [(1 : ℝ)] := by norm_num [aminL, amaxL]
  have h3 : (1 : ℝ) < 2 := one_lt_two
  have hmain := (ladder_covers_encut [(1 : ℝ)] 2 1 h1 h2 h3).2.2 hbranch
  exact ⟨⟨h1, h2, h3⟩, hbranch, hmain.2.2.1, hmain.2.2.2⟩

/-! ## C4 and C8: the three-stage orchestrator `FastPASDWCiderKernel`

The orchestrator's per-atom state lives in instance attributes
(`self.fr_asgLq`, `self.df_asgLq`, `self.vfr_asgLq`, `self.vdf_asgLq`,
`self.c_asiq`) that are only class-level annotations until the feature
(resp. energy) stage assigns them.  Reading one of them before it is
assigned raises `AttributeError`; a dict lookup for an atom that was never
processed raises `KeyError`.  Both are the source's realization of the
spec's `StateSequenceError`.  Attributes are modelled as `Option`-valued
fields (`none` = never assigned), dicts as association lists keyed by the
atom index. -/

/-- Reading a Python instance attribute: `none` (never assigned) raises
`AttributeError`. -/
def readAttr {α : Type} (o : Option α) : Except PyErr α :=
  match o with
  | none => .error .attributeError
  | some v => .ok v

/-- Python dict subscription `d[a]`: a missing key raises `KeyError`. -/
def dictGet {α : Type} (d : List (ℕ × α)) (a : ℕ) : Except PyErr α :=
  match d.lookup a with
  | none => .error .keyError
  | some v => .ok v

/-- Sequential per-atom loop in `Except`: the first raised exception
aborts the whole call, as in Python. -/
def mapExcept {α β : Type} (f : ℕ × α → Except PyErr β) :
    List (ℕ × α) → Except PyErr (List β)
  | [] => .ok []
  | x :: xs => do
    let y ← f x
    let ys ← mapExcept f xs
    pure (y :: ys)

/-- The orchestrator's mutable per-atom caches.  `none` models an instance
attribute that has not been assigned yet (the class body only annotates
them). -/
structure KernelState (α : Type) where
  fr_asgLq : Option (List (ℕ × α))
  df_asgLq : Option (List (ℕ × α))
  vfr_asgLq : Option (List (ℕ × α))
  vdf_asgLq : Option (List (ℕ × α))
  c_asiq : Option (List (ℕ × α))

/-- Per-atom numerical work of the three stages (theta construction,
convolution, basis fit, ML-kernel evaluation).  These pipelines are
exercised elsewhere in this development; for the orchestrator's
state-machine behaviour only their input/output shape matters, so they are
parameters here.  `featPerAtom (a, D_sp) = (c, df, fr)`;
`energyPerAtom a D_sp D_siq df fr = (dvD, deltaE, deltaV, vfr, vdf)`;
`potPerAtom a D_sp vc vdf vfr = dH`. -/
structure AtomOps (α : Type) where
  featPerAtom : ℕ → α → α × α × α
  energyPerAtom : ℕ → α → α → α → α → α × α × α × α × α
  potPerAtom : ℕ → α → α → α → α → α

/-- `FastPASDWCiderKernel.calculate_paw_cider_features`.  Returns
`({}, {})` immediately when `D_asp` is empty; otherwise rebuilds the
`fr`/`df`/`c` caches from scratch and returns `(c_asiq, df_asgLq)`. -/
def calcFeatures {α : Type} (ops : AtomOps α) (st : KernelState α)
    (D_asp : List (ℕ × α)) :
    KernelState α × (List (ℕ × α) × List (ℕ × α)) :=
  if D_asp.isEmpty then (st, ([], []))
  else
    let frdf := D_asp.map fun p => (p.1, ops.featPerAtom p.1 p.2)
    let c := frdf.map fun p => (p.1, p.2.1)
    let df := frdf.map fun p => (p.1, p.2.2.1)
    let fr := frdf.map fun p => (p.1, p.2.2.2)
    ({ st with fr_asgLq := some fr, df_asgLq := some df, c_asiq := some c },
      (c, df))

/-- `FastPASDWCiderKernel.calculate_paw_cider_energy`.  Returns
`({}, {}, {})` immediately when `D_asp` is empty; otherwise, per atom, it
subscripts `D_asiq[a]`, then reads `self.df_asgLq` and `self.fr_asgLq`
(in the source's order), and finally stores `vfr_asgLq`/`vdf_asgLq` and
returns `(dvD_asiq, deltaE, deltaV)`. -/
def calcEnergy {α : Type} (ops : AtomOps α) (st : KernelState α)
    (D_asp D_asiq : List (ℕ × α)) :
    Except PyErr
      (KernelState α × (List (ℕ × α) × List (ℕ × α) × List (ℕ × α))) :=
  if D_asp.isEmpty then .ok (st, ([], [], []))
  else do
    let entries ← mapExcept (fun p => do
      let diq ← dictGet D_asiq p.1
      let dfd ← readAttr st.df_asgLq
      let df ← dictGet dfd p.1
      let frd ← readAttr st.fr_asgLq
      let fr ← dictGet frd p.1
      pure (p.1, ops.energyPerAtom p.1 p.2 diq df fr)) D_asp
    let dvD := entries.map fun p => (p.1, p.2.1)
    let dE := entries.map fun p => (p.1, p.2.2.1)
    let dV := entries.map fun p => (p.1, p.2.2.2.1)
    let vfr := entries.map fun p => (p.1, p.2.2.2.2.1)
    let vdf := entries.map fun p => (p.1, p.2.2.2.2.2)
    .ok ({ st with vfr_asgLq := some vfr, vdf_asgLq := some vdf },
      (dvD, dE, dV))

/-- `FastPASDWCiderKernel.calculate_paw_cider_potential`.  Returns `{}`
immediately when `D_asp` is empty; otherwise, per atom, it subscripts
`vc_asiq[a]`, then reads `self.vdf_asgLq` and `self.vfr_asgLq` (in the
source's order), producing the `dH_asp` dict.  It assigns no instance
attribute. -/
def calcPotential {α : Type} (ops : AtomOps α) (st : KernelState α)
    (D_asp vc_asiq : List (ℕ × α)) : Except PyErr (List (ℕ × α)) :=
  if D_asp.isEmpty then .ok []
  else
    mapExcept (fun p => do
      let vc ← dictGet vc_asiq p.1
      let vdfd ← readAttr st.vdf_asgLq
      let vdf ← dictGet vdfd p.1
      let vfrd ← readAttr st.vfr_asgLq
      let vfr ← dictGet vfrd p.1
      pure (p.1, ops.potPerAtom p.1 p.2 vc vdf vfr)) D_asp

/-- Result of the dispatcher `calculate_paw_feat_corrections`. -/
inductive StageOut (α : Type) where
  | featOut (st : KernelState α) (c df : List (ℕ × α))
  | energyOut (st : KernelState α) (dvD dE dV : List (ℕ × α))
  | potOut (dH : List (ℕ × α))

/-- `FastPASDWCiderKernel.calculate_paw_feat_corrections`: routes on which
optional arguments are given — features when `D_asiq` and `vc_asiq` are
both `None`, energy when `D_asiq` is given (asserting `df_asgLq` is also
given), potential otherwise. -/
def calcPawFeatCorrections {α : Type} (ops : AtomOps α) (st : KernelState α)
    (D_asp : List (ℕ × α)) (D_asiq df_asgLq vc_asiq : Option (List (ℕ × α))) :
    Except PyErr (StageOut α) :=
  match D_asiq, vc_asiq with
  | none, none =>
    let r := calcFeatures ops st D_asp
    .ok (.featOut r.1 r.2.1 r.2.2)
  | some diq, _ =>
    match df_asgLq with
    | none => .error .assertionError
    | some _ =>
      (calcEnergy ops st D_asp diq).map fun r =>
        .energyOut r.1 r.2.1 r.2.2.1 r.2.2.2
  | none, some vc =>
    (calcPotential ops st D_asp vc).map .potOut

/-- C4: calling the energy stage (dispatcher with `D_asiq` given) before
the feature stage has stored per-atom state (`df_asgLq` attribute never
assigned), or the potential stage (`vc_asiq` given) before the energy
stage (`vdf_asgLq` never assigned), raises a fatal error for that atom —
the source's `AttributeError` realization of the spec's
`StateSequenceError` — rather than returning a result. -/
theorem out_of_order_stage_raises {α : Type} (ops : AtomOps α)
    (st : KernelState α) (hdf : st.df_asgLq = none)
    (hvdf : st.vdf_asgLq = none) (a : ℕ) (d diq vcv : α)
    (rest D_asiq vc : List (ℕ × α)) (df_arg : List (ℕ × α))
    (hdiq : D_asiq.lookup a = some diq) (hvc : vc.lookup a = some vcv) :
    calcPawFeatCorrections ops st ((a, d) :: rest) (some D_asiq)
        (some df_arg) none = .error .attributeError ∧
    calcPawFeatCorrections ops st ((a, d) :: rest) none none (some vc) =
      .error .attributeError := by
  constructor
  · simp [calcPawFeatCorrections, calcEnergy, mapExcept, dictGet, hdiq,
      readAttr, hdf, bind, Except.bind, Except.map]
  · simp [calcPawFeatCorrections, calcPotential, mapExcept, dictGet, hvc,
      readAttr, hvdf, bind, Except.bind, Except.map]

/-- Witness for C4: a fresh kernel (no attribute assigned), one atom `0`
with a projection entry present. -/
theorem out_of_order_stage_raises_witness :
    ((⟨none, none, none, none, none⟩ : KernelState ℕ).df_asgLq = none ∧
        (⟨none, none, none, none, none⟩ : KernelState ℕ).vdf_asgLq = none ∧
        ([((0 : ℕ), (7 : ℕ))]).lookup 0 = some 7) ∧
      (calcPawFeatCorrections
          ⟨fun _ _ => (0, 0, 0), fun _ _ _ _ _ => (0, 0, 0, 0, 0),
            fun _ _ _ _ _ => 0⟩
          ⟨none, none, none, none, none⟩ [(0, 5)] (some [(0, 7)]) (some [])
          none = .error .attributeError ∧
        calcPawFeatCorrections
          ⟨fun _ _ => (0, 0, 0), fun _ _ _ _ _ => (0, 0, 0, 0, 0),
            fun _ _ _ _ _ => 0⟩
          ⟨none, none, none, none, none⟩ [(0, 5)] none none (some [(0, 7)]) =
          .error .attributeError) :=
  ⟨⟨rfl, rfl, rfl⟩,
    out_of_order_stage_raises
      ⟨fun _ _ => (0, 0, 0), fun _ _ _ _ _ => (0, 0, 0, 0, 0),
        fun _ _ _ _ _ => 0⟩
      ⟨none, none, none, none, none⟩ rfl rfl 0 5 7 7 [] [(0, 7)] [(0, 7)] []
      rfl rfl⟩

/-- C8: with an empty `D_asp` each orchestrator stage is a no-op: the
feature stage returns `({}, {})`, the energy stage `({}, {}, {})`, and the
potential stage `{}`, in every case leaving the stored per-atom state
untouched (the returned state is the input state, whatever it holds). -/
theorem empty_density_mapping_is_noop {α : Type} (ops : AtomOps α)
    (st : KernelState α) (D_asiq vc : List (ℕ × α)) :
    calcFeatures ops st [] = (st, ([], [])) ∧
    calcEnergy ops st [] D_asiq = .ok (st, ([], [], [])) ∧
    calcPotential ops st [] vc = .ok [] :=
  ⟨rfl, rfl, rfl⟩

/-! ## Shared exact linear algebra

`scipy.linalg.cho_factor` / `cho_solve` are external to `src/`.  In exact
arithmetic, `cho_factor` succeeds precisely on (symmetric) positive-definite
matrices, and `cho_solve(cho_factor(A), b)` is `A⁻¹ b`.  We model the
factor object as the matrix itself, the success condition by Sylvester's
criterion (all leading principal minors positive — a decidable, exact
test over `ℚ`), and solving with the stored factor as multiplication by
the explicit rational inverse below. -/

/-- Exact rational matrix inverse `det⁻¹ • adjugate` (equal to `A⁻¹` when
`A.det ≠ 0`); used to model solving with a cached Cholesky factorization
in exact arithmetic. -/
def qInv {n : ℕ} (A : Matrix (Fin n) (Fin n) ℚ) : Matrix (Fin n) (Fin n) ℚ :=
  (A.det)⁻¹ • A.adjugate

theorem qInv_mul_self {n : ℕ} (A : Matrix (Fin n) (Fin n) ℚ)
    (h : A.det ≠ 0) : qInv A * A = 1 := by
  rw [qInv, Matrix.smul_mul, Matrix.adjugate_mul, smul_smul,
    inv_mul_cancel₀ h, one_smul]

/-- The `k × k` leading principal submatrix of `A`. -/
def leadSub {n : ℕ} (A : Matrix (Fin n) (Fin n) ℚ) (k : ℕ) (h : k ≤ n) :
    Matrix (Fin k) (Fin k) ℚ :=
  Matrix.of fun i j => A (Fin.castLE h i) (Fin.castLE h j)

/-- Sylvester positivity test: every leading principal minor is positive.
For a symmetric matrix this is exactly positive definiteness, i.e. exactly
the condition under which `scipy.linalg.cho_factor` succeeds. -/
def posDefQ {n : ℕ} (A : Matrix (Fin n) (Fin n) ℚ) : Prop :=
  ∀ k : Fin n, 0 < (leadSub A (k.val + 1) k.isLt).det

instance posDefQDecidable {n : ℕ} (A : Matrix (Fin n) (Fin n) ℚ) :
    Decidable (posDefQ A) := by
  unfold posDefQ; exact Fintype.decidableForallFintype

theorem leadSub_self {n : ℕ} (A : Matrix (Fin n) (Fin n) ℚ) (h : n ≤ n) :
    leadSub A n h = A := rfl

theorem posDefQ_det_ne_zero {n : ℕ} (A : Matrix (Fin n) (Fin n) ℚ)
    (h : posDefQ A) : A.det ≠ 0 := by
  cases n with
  | zero => simp [Matrix.det_fin_zero]
  | succ m => exact ne_of_gt (h (Fin.last m))

/-! ## C10: `PAugSetup.initialize_g2a` builds a dual basis

Per angular channel `l`, the source assembles the Gram matrix
`ovlp[i,j] = ∑_g pfuncs[i] pfuncs[j] (r² dr · filt)` of the channel's
projector functions under the filtered radial measure and sets
`ffuncs = cho_solve(cho_factor(ovlp), pfuncs)`, i.e. `ovlp⁻¹ · pfuncs` in
exact arithmetic; channels are processed in disjoint `nbas_loc` blocks, so
functions of different `l` never mix.  Afterwards it sets
`exact_ovlp_pf = identity`. -/

/-- The data of `initialize_g2a` for one setup: `lmax + 1` channels, the
channel `l` holding `m l` projector functions sampled on an `ng`-point
radial grid, with the filtered quadrature weight `w g = r_g² dr_g · filt g`
shared by all channels. -/
structure G2aSetup where
  lmax : ℕ
  m : ℕ → ℕ
  ng : ℕ
  p : (l : ℕ) → Fin (m l) → Fin ng → ℚ
  w : Fin ng → ℚ

/-- The per-channel Gram matrix `ovlp` of `initialize_g2a`
(`np.einsum("ig,jg,g->ij", pfuncs, pfuncs, dv_g * filt)`). -/
def g2aGram (S : G2aSetup) (l : ℕ) : Matrix (Fin (S.m l)) (Fin (S.m l)) ℚ :=
  Matrix.of fun i j => ∑ g, S.p l i g * S.p l j g * S.w g

/-- The dual functions `ffuncs_jg` of `initialize_g2a`:
`cho_solve(cho_factor(ovlp), pfuncs)`, i.e. `ovlp⁻¹ · pfuncs` in exact
arithmetic, built from the channel's own projectors only. -/
def g2aFfuncs (S : G2aSetup) (l : ℕ) (j : Fin (S.m l)) (g : Fin S.ng) : ℚ :=
  ∑ i, qInv (g2aGram S l) j i * S.p l i g

/-- C10: in exact arithmetic, after `initialize_g2a` the computed
`ffuncs_jg` are dual to the projector functions under the filtered radial
measure: for every channel `l ≤ lmax` and all `j`, `j'` inside that
channel, `∑_g ffuncs[j] · pfuncs[j'] · filt · r² dr = δ_{j j'}` —
consistent with `exact_ovlp_pf` being set to the identity; the
construction never mixes channels (each `ffuncs` row uses only its own
channel's projectors). -/
theorem g2a_dual_basis (S : G2aSetup)
    (hdet : ∀ l ≤ S.lmax, (g2aGram S l).det ≠ 0) :
    ∀ l ≤ S.lmax, ∀ j j' : Fin (S.m l),
      (∑ g, g2aFfuncs S l j g * S.p l j' g * S.w g) =
        if j = j' then 1 else 0 := by
  intro l hl j j'
  have key : qInv (g2aGram S l) * g2aGram S l = 1 :=
    qInv_mul_self _ (hdet l hl)
  have h1 : (∑ g, g2aFfuncs S l j g * S.p l j' g * S.w g) =
      ∑ i, qInv (g2aGram S l) j i * g2aGram S l i j' := by
    simp only [g2aFfuncs, g2aGram, Matrix.of_apply, Finset.sum_mul,
      Finset.mul_sum]
    rw [Finset.sum_comm]
    refine Finset.sum_congr rfl fun i _ => ?_
    refine Finset.sum_congr rfl fun g _ => ?_
    ring
  have h2 : (∑ i, qInv (g2aGram S l) j i * g2aGram S l i j') =
      (qInv (g2aGram S l) * g2aGram S l) j j' := by
    rw [Matrix.mul_apply]
  rw [h1, h2, key, Matrix.one_apply]

/-- Witness for C10: one channel with a single projector `p ≡ 1` on a
one-point grid with unit weight; the Gram matrix is `[[1]]`. -/
theorem g2a_dual_basis_witness :
    (∀ l ≤ (⟨0, fun _ => 1, 1, fun _ _ _ => 1, fun _ => 1⟩ : G2aSetup).lmax,
        (g2aGram ⟨0, fun _ => 1, 1, fun _ _ _ => 1, fun _ => 1⟩ l).det ≠ 0) ∧
      (∑ g, g2aFfuncs ⟨0, fun _ => 1, 1, fun _ _ _ => 1, fun _ => 1⟩ 0 0 g *
          (1 : ℚ) * 1) = 1 := by
  have hdet : ∀ l ≤ (⟨0, fun _ => 1, 1, fun _ _ _ => 1, fun _ => 1⟩ :
      G2aSetup).lmax,
      (g2aGram ⟨0, fun _ => 1, 1, fun _ _ _ => 1, fun _ => 1⟩ l).det ≠ 0 := by
    intro l hl
    have hl0 : l = 0 := Nat.le_zero.mp hl
    subst hl0
    simp [g2aGram, Matrix.det_fin_one]
  refine ⟨hdet, ?_⟩
  have h := g2a_dual_basis ⟨0, fun _ => 1, 1, fun _ _ _ => 1, fun _ => 1⟩
    hdet 0 (le_refl 0) 0 0
  simpa using h

/-! ## C6: `PSmoothSetup.initialize_a2g` block assembly and factorization

The source builds, for every `l ∈ [0, lmax]`, the block matrix
`p_l_ii = [[P11, P12], [P21, P22]]` with `P11 = get_p11_matrix(..., reg=1e-6)`,
`P22 = get_p22_matrix(..., reg=1e-5) + 1e-2 * get_p22_matrix(..., cut_func=True)`,
then runs `cho_factor(p_l_ii[l])` once per `l` at setup time, storing the
factorization (`p_cl_l_ii`) for reuse by every later `cho_solve` in
`get_c_and_df` / `get_v_from_c_and_df`.  The matrix builders live in
`ciderpress.gpaw.fit_paw_gauss_pot`, outside `src/`; their outputs are the
unregularized overlap parameters below, and the additive regularizations
(the constants the claim names) are applied here as in the source. -/

/-- A square rational matrix of unspecified size (one stored
factorization). -/
def SqMatQ : Type := Σ n : ℕ, Matrix (Fin n) (Fin n) ℚ

/-- `scipy.linalg.cho_factor`, exact-arithmetic model: succeeds exactly on
positive-definite input (Sylvester test), returning the factor object
(identified with the matrix itself); otherwise raises, which the caller
propagates as a fatal setup failure. -/
def choFactor {n : ℕ} (A : Matrix (Fin n) (Fin n) ℚ) :
    Except PyErr (Matrix (Fin n) (Fin n) ℚ) :=
  if posDefQ A then .ok A else .error .setupError

/-- Modelled from the spec: the unregularized overlap blocks produced by
`get_p11_matrix` / `get_p12_p21_matrix` / `get_p22_matrix`
(`ciderpress.gpaw.fit_paw_gauss_pot`, not under `src/`): `ovlp11` is the
pairwise overlap of auxiliary-basis convolution kernels, `ovlp22` the
analogous overlap of augmentation-function convolutions, `ovlp22cut` its
cutoff-weighted (`cut_func=True`) variant, `p12`/`p21` the cross terms.
Channel `l` has `np` auxiliary functions and `nja l` augmentation
columns. -/
structure A2gParams where
  lmax : ℕ
  np : ℕ
  nja : ℕ → ℕ
  ovlp11 : ℕ → Matrix (Fin np) (Fin np) ℚ
  p12 : (l : ℕ) → Matrix (Fin np) (Fin (nja l)) ℚ
  p21 : (l : ℕ) → Matrix (Fin (nja l)) (Fin np) ℚ
  ovlp22 : (l : ℕ) → Matrix (Fin (nja l)) (Fin (nja l)) ℚ
  ovlp22cut : (l : ℕ) → Matrix (Fin (nja l)) (Fin (nja l)) ℚ

/-- `REG11 = 1e-6` from `initialize_a2g`. -/
def REG11 : ℚ := 1e-6

/-- `REG22 = 1e-5` from `initialize_a2g`. -/
def REG22 : ℚ := 1e-5

/-- `FAC22 = 1e-2` from `initialize_a2g`. -/
def FAC22 : ℚ := 1e-2

/-- The `P11` block: auxiliary overlap regularized by the additive
constant `REG11` (`get_p11_matrix(..., reg=REG11)`). -/
def p11Block (P : A2gParams) (l : ℕ) : Matrix (Fin P.np) (Fin P.np) ℚ :=
  P.ovlp11 l + REG11 • 1

/-- The `P22` block: augmentation overlap regularized by `REG22` plus the
secondary cutoff-weighted term scaled by `FAC22`
(`get_p22_matrix(..., reg=REG22) + FAC22 * get_p22_matrix(..., cut_func=True)`). -/
def p22Block (P : A2gParams) (l : ℕ) :
    Matrix (Fin (P.nja l)) (Fin (P.nja l)) ℚ :=
  P.ovlp22 l + REG22 • 1 + FAC22 • P.ovlp22cut l

/-- The full per-channel matrix `p_l_ii[l] = [[P11, P12], [P21, P22]]`
(`construct_full_p_matrices`). -/
def fullPMat (P : A2gParams) (l : ℕ) :
    Matrix (Fin P.np ⊕ Fin (P.nja l)) (Fin P.np ⊕ Fin (P.nja l)) ℚ :=
  Matrix.fromBlocks (p11Block P l) (P.p12 l) (P.p21 l) (p22Block P l)

/-- `fullPMat` reindexed to a plain `Fin (np + nja l)` square matrix. -/
def fullPFin (P : A2gParams) (l : ℕ) :
    Matrix (Fin (P.np + P.nja l)) (Fin (P.np + P.nja l)) ℚ :=
  Matrix.reindex finSumFinEquiv finSumFinEquiv (fullPMat P l)

/-- The factorization loop of `initialize_a2g`:
`for l in range(lmax + 1): c_and_l = cho_factor(p_l_ii[l]); append` —
the first `cho_factor` failure aborts the whole setup. -/
def factorLoop (P : A2gParams) : List ℕ → Except PyErr (List SqMatQ)
  | [] => .ok []
  | l :: ls => do
    let f ← choFactor (fullPFin P l)
    let rest ← factorLoop P ls
    pure (⟨P.np + P.nja l, f⟩ :: rest)

/-- `initialize_a2g`'s stored factorization list `p_cl_l_ii`. -/
def initA2gFactors (P : A2gParams) : Except PyErr (List SqMatQ) :=
  factorLoop P (List.range (P.lmax + 1))

theorem factorLoop_char (P : A2gParams) (ls : List ℕ) :
    factorLoop P ls =
      if ∀ l ∈ ls, posDefQ (fullPFin P l)
      then .ok (ls.map fun l => (⟨P.np + P.nja l, fullPFin P l⟩ : SqMatQ))
      else .error .setupError := by
  induction ls with
  | nil => simp [factorLoop]
  | cons l ls ih =>
    simp only [factorLoop, choFactor, bind, Except.bind]
    by_cases h : posDefQ (fullPFin P l)
    · rw [if_pos h, ih]
      by_cases h2 : ∀ x ∈ ls, posDefQ (fullPFin P x)
      · rw [if_pos h2, if_pos (show ∀ x ∈ l :: ls, posDefQ (fullPFin P x)
          from List.forall_mem_cons.mpr ⟨h, h2⟩)]
        rfl
      · rw [if_neg h2, if_neg (show ¬∀ x ∈ l :: ls, posDefQ (fullPFin P x)
          from fun hc => h2 fun x hx => hc x (List.mem_cons_of_mem l hx))]
    · rw [if_neg h, if_neg (show ¬∀ x ∈ l :: ls, posDefQ (fullPFin P x)
        from fun hc => h (hc l (List.mem_cons_self l ls)))]

/-- C6: `initialize_a2g` assembles, per channel `l ≤ lmax`, the block
matrix with `P11` regularized by the additive constant `1e-6` and `P22` by
`1e-5` plus the `cut_func=True` term scaled by `1e-2`; it Cholesky-factors
the assembled matrices exactly once at setup time, storing one
factorization per channel (for reuse by every later solve), and any
non-positive-definite channel matrix makes the whole setup fail with the
raised error instead of storing anything. -/
theorem a2g_assembles_and_factors_once (P : A2gParams) :
    (∀ l, fullPFin P l =
      Matrix.reindex finSumFinEquiv finSumFinEquiv
        (Matrix.fromBlocks (P.ovlp11 l + (1e-6 : ℚ) • 1) (P.p12 l)
          (P.p21 l)
          (P.ovlp22 l + (1e-5 : ℚ) • 1 + (1e-2 : ℚ) • P.ovlp22cut l))) ∧
    initA2gFactors P =
      (if ∀ l ∈ List.range (P.lmax + 1), posDefQ (fullPFin P l)
       then Except.ok ((List.range (P.lmax + 1)).map
          fun l => (⟨P.np + P.nja l, fullPFin P l⟩ : SqMatQ))
       else Except.error PyErr.setupError) :=
  ⟨fun _ => rfl, factorLoop_char P _⟩

/-! ## C7: linearity of the basis-projection solve `get_c_and_df`

`PSmoothSetup.get_c_and_df` loops over spin `s`, channel `l ≤ lmax` and
`L ∈ [l², l² + 2l + 1)`, assembles `b1` (`get_b1_pb[_recip]`) and `b2`
(`get_b2_ja[_recip]`) by contracting the input field against the fixed
`delta`/`phi` tensors with the quadrature weights `dv` and dual weights
`w_b`, concatenates them, solves with the cached per-`l` Cholesky
factorization (`cho_solve(p_cl_l_ii[l], b)`, exact-arithmetic semantics:
multiplication by the stored inverse `pinv`), and scatters the solution
into `df_sLpb` (first `NP·nb` entries) and `c_sib` (remaining entries, one
`nalpha`-row per projector `i` with `lmlist_i[i] == L`).  The `realspace`
flag only selects which fixed tensor family is contracted. -/

/-- Position of projector `i` among the projectors sharing its `L`
(the row assigned to `i` by the boolean-mask scatter
`c_sib[s, ilist, :] += x[N1:].reshape(-1, Nalpha_sm)`). -/
def rankOf (lml : ℕ → ℕ) (i : ℕ) : ℕ :=
  ((List.range i).filter fun i' => lml i' = lml i).length

/-- `np.append(b1.flatten(), b2.flatten())` (`cat_b_vecs`). -/
def catVec (N1 : ℕ) (v1 v2 : ℕ → ℚ) : ℕ → ℚ :=
  fun k => if k < N1 then v1 k else v2 (k - N1)

/-- The fixed data of one `PSmoothSetup` after `initialize_a2g`: sizes,
the projector map `lmlist_i`, the contraction tensors of both `realspace`
families (`delta_lpg`/`dv_g` vs `delta_lpk`/`dvk`, `phi_jabg` vs
`phi_jabk`), the dual weights `w_b`, and the per-`l` solve matrix `pinv`
of the cached Cholesky factorization. -/
structure SolveData where
  lmax : ℕ
  NP : ℕ
  nb : ℕ
  ng : ℕ
  nalpha : ℕ
  jcount : ℕ → ℕ
  lmlist : ℕ → ℕ
  delta : Bool → ℕ → ℕ → ℕ → ℚ
  phi : Bool → ℕ → ℕ → ℕ → ℕ → ℕ → ℚ
  dv : Bool → ℕ → ℚ
  w_b : ℕ → ℚ
  pinv : ℕ → ℕ → ℕ → ℚ

namespace SolveData

/-- `get_b1_pb` (`realspace`) / `get_b1_pb_recip`:
`einsum("bg,pg,g->pb", F, delta[l], dv) * w_b`, at flat index
`idx = p * nb + b`. -/
def b1 (D : SolveData) (rs : Bool) (l : ℕ) (F : ℕ → ℕ → ℚ) (idx : ℕ) : ℚ :=
  (∑ g ∈ Finset.range D.ng,
    F (idx % D.nb) g * D.delta rs l (idx / D.nb) g * D.dv rs g) *
    D.w_b (idx % D.nb)

/-- `get_b2_ja` / `get_b2_ja_recip`:
`einsum("bg,jabg,b,g->ja", F, phi[l-slice], w_b, dv)`, at flat index
`idx = j * nalpha + a`. -/
def b2 (D : SolveData) (rs : Bool) (l : ℕ) (F : ℕ → ℕ → ℚ) (idx : ℕ) : ℚ :=
  ∑ b ∈ Finset.range D.nb, ∑ g ∈ Finset.range D.ng,
    F b g * D.phi rs l (idx / D.nalpha) (idx % D.nalpha) b g * D.w_b b *
      D.dv rs g

/-- `b = cat_b_vecs(b1, b2)`. -/
def bvec (D : SolveData) (rs : Bool) (l : ℕ) (F : ℕ → ℕ → ℚ) : ℕ → ℚ :=
  catVec (D.NP * D.nb) (D.b1 rs l F) (D.b2 rs l F)

/-- `x = cho_solve(p_cl_l_ii[l], b)` with the cached factorization:
multiplication by the stored inverse. -/
def xsol (D : SolveData) (rs : Bool) (l : ℕ) (F : ℕ → ℕ → ℚ) (k : ℕ) : ℚ :=
  ∑ j ∈ Finset.range (D.NP * D.nb + D.jcount l * D.nalpha),
    D.pinv l k j * D.bvec rs l F j

/-- The `df_sLpb` output: `df_sLpb[s, L] += x[:N1].reshape(NP, nb)`
accumulated over the `(l, L)` loop. -/
def dfOut (D : SolveData) (rs : Bool) (y : ℕ → ℕ → ℕ → ℕ → ℚ)
    (s L p b : ℕ) : ℚ :=
  ∑ l ∈ Finset.range (D.lmax + 1), ∑ t ∈ Finset.range (2 * l + 1),
    if l * l + t = L
    then D.xsol rs l (fun b' g => y s b' (l * l + t) g) (p * D.nb + b)
    else 0

/-- The `c_sib` output: `c_sib[s, ilist, :] += x[N1:].reshape(-1, nalpha)`
with `ilist = (lmlist_i == L)`, accumulated over the `(l, L)` loop. -/
def cOut (D : SolveData) (rs : Bool) (y : ℕ → ℕ → ℕ → ℕ → ℚ)
    (s i q : ℕ) : ℚ :=
  ∑ l ∈ Finset.range (D.lmax + 1), ∑ t ∈ Finset.range (2 * l + 1),
    if D.lmlist i = l * l + t
    then D.xsol rs l (fun b' g => y s b' (l * l + t) g)
      (D.NP * D.nb + rankOf D.lmlist i * D.nalpha + q)
    else 0

end SolveData

theorem SolveData.b1_linear (D : SolveData) (rs : Bool) (l : ℕ) (a b : ℚ)
    (F G : ℕ → ℕ → ℚ) (idx : ℕ) :
    D.b1 rs l (fun u v => a * F u v + b * G u v) idx =
      a * D.b1 rs l F idx + b * D.b1 rs l G idx := by
  simp only [SolveData.b1]
  have h : ∀ g ∈ Finset.range D.ng,
      (a * F (idx % D.nb) g + b * G (idx % D.nb) g) *
          D.delta rs l (idx / D.nb) g * D.dv rs g =
        a * (F (idx % D.nb) g * D.delta rs l (idx / D.nb) g * D.dv rs g) +
          b * (G (idx % D.nb) g * D.delta rs l (idx / D.nb) g * D.dv rs g) :=
    fun g _ => by ring
  rw [Finset.sum_congr rfl h, Finset.sum_add_distrib, ← Finset.mul_sum,
    ← Finset.mul_sum]
  ring

theorem SolveData.b2_linear (D : SolveData) (rs : Bool) (l : ℕ) (a b : ℚ)
    (F G : ℕ → ℕ → ℚ) (idx : ℕ) :
    D.b2 rs l (fun u v => a * F u v + b * G u v) idx =
      a * D.b2 rs l F idx + b * D.b2 rs l G idx := by
  simp only [SolveData.b2]
  have h : ∀ bb ∈ Finset.range D.nb,
      (∑ g ∈ Finset.range D.ng,
        (a * F bb g + b * G bb g) *
            D.phi rs l (idx / D.nalpha) (idx % D.nalpha) bb g * D.w_b bb *
          D.dv rs g) =
        a * (∑ g ∈ Finset.range D.ng,
            F bb g * D.phi rs l (idx / D.nalpha) (idx % D.nalpha) bb g *
              D.w_b bb * D.dv rs g) +
          b * (∑ g ∈ Finset.range D.ng,
            G bb g * D.phi rs l (idx / D.nalpha) (idx % D.nalpha) bb g *
              D.w_b bb * D.dv rs g) := by
    intro bb _
    have h2 : ∀ g ∈ Finset.range D.ng,
        (a * F bb g + b * G bb g) *
            D.phi rs l (idx / D.nalpha) (idx % D.nalpha) bb g * D.w_b bb *
          D.dv rs g =
          a * (F bb g * D.phi rs l (idx / D.nalpha) (idx % D.nalpha) bb g *
              D.w_b bb * D.dv rs g) +
            b * (G bb g * D.phi rs l (idx / D.nalpha) (idx % D.nalpha) bb g *
              D.w_b bb * D.dv rs g) :=
      fun g _ => by ring
    rw [Finset.sum_congr rfl h2, Finset.sum_add_distrib, ← Finset.mul_sum,
      ← Finset.mul_sum]
  rw [Finset.sum_congr rfl h, Finset.sum_add_distrib, ← Finset.mul_sum,
    ← Finset.mul_sum]

theorem SolveData.bvec_linear (D : SolveData) (rs : Bool) (l : ℕ) (a b : ℚ)
    (F G : ℕ → ℕ → ℚ) (j : ℕ) :
    D.bvec rs l (fun u v => a * F u v + b * G u v) j =
      a * D.bvec rs l F j + b * D.bvec rs l G j := by
  by_cases h : j < D.NP * D.nb
  · simp [SolveData.bvec, catVec, h, SolveData.b1_linear]
  · simp [SolveData.bvec, catVec, h, SolveData.b2_linear]

theorem SolveData.xsol_linear (D : SolveData) (rs : Bool) (l : ℕ) (a b : ℚ)
    (F G : ℕ → ℕ → ℚ) (k : ℕ) :
    D.xsol rs l (fun u v => a * F u v + b * G u v) k =
      a * D.xsol rs l F k + b * D.xsol rs l G k := by
  simp only [SolveData.xsol]
  have h : ∀ j ∈ Finset.range (D.NP * D.nb + D.jcount l * D.nalpha),
      D.pinv l k j * D.bvec rs l (fun u v => a * F u v + b * G u v) j =
        a * (D.pinv l k j * D.bvec rs l F j) +
          b * (D.pinv l k j * D.bvec rs l G j) := by
    intro j _
    rw [SolveData.bvec_linear]
    ring
  rw [Finset.sum_congr rfl h, Finset.sum_add_distrib, ← Finset.mul_sum,
    ← Finset.mul_sum]

theorem SolveData.dfOut_linear (D : SolveData) (rs : Bool) (a b : ℚ)
    (x y : ℕ → ℕ → ℕ → ℕ → ℚ) (s L p bb : ℕ) :
    D.dfOut rs (fun s' b' L' g => a * x s' b' L' g + b * y s' b' L' g)
        s L p bb =
      a * D.dfOut rs x s L p bb + b * D.dfOut rs y s L p bb := by
  simp only [SolveData.dfOut]
  have h : ∀ l ∈ Finset.range (D.lmax + 1),
      (∑ t ∈ Finset.range (2 * l + 1),
        if l * l + t = L
        then D.xsol rs l
          (fun b' g => a * x s b' (l * l + t) g + b * y s b' (l * l + t) g)
          (p * D.nb + bb)
        else 0) =
        a * (∑ t ∈ Finset.range (2 * l + 1),
            if l * l + t = L
            then D.xsol rs l (fun b' g => x s b' (l * l + t) g)
              (p * D.nb + bb)
            else 0) +
          b * (∑ t ∈ Finset.range (2 * l + 1),
            if l * l + t = L
            then D.xsol rs l (fun b' g => y s b' (l * l + t) g)
              (p * D.nb + bb)
            else 0) := by
    intro l _
    have h2 : ∀ t ∈ Finset.range (2 * l + 1),
        (if l * l + t = L
          then D.xsol rs l
            (fun b' g => a * x s b' (l * l + t) g + b * y s b' (l * l + t) g)
            (p * D.nb + bb)
          else 0) =
          a * (if l * l + t = L
            then D.xsol rs l (fun b' g => x s b' (l * l + t) g)
              (p * D.nb + bb)
            else 0) +
            b * (if l * l + t = L
              then D.xsol rs l (fun b' g => y s b' (l * l + t) g)
                (p * D.nb + bb)
              else 0) := by
      intro t _
      rw [SolveData.xsol_linear]
      split <;> ring
    rw [Finset.sum_congr rfl h2, Finset.sum_add_distrib, ← Finset.mul_sum,
      ← Finset.mul_sum]
  rw [Finset.sum_congr rfl h, Finset.sum_add_distrib, ← Finset.mul_sum,
    ← Finset.mul_sum]

theorem SolveData.cOut_linear (D : SolveData) (rs : Bool) (a b : ℚ)
    (x y : ℕ → ℕ → ℕ → ℕ → ℚ) (s i q : ℕ) :
    D.cOut rs (fun s' b' L' g => a * x s' b' L' g + b * y s' b' L' g)
        s i q =
      a * D.cOut rs x s i q + b * D.cOut rs y s i q := by
  simp only [SolveData.cOut]
  have h : ∀ l ∈ Finset.range (D.lmax + 1),
      (∑ t ∈ Finset.range (2 * l + 1),
        if D.lmlist i = l * l + t
        then D.xsol rs l
          (fun b' g => a * x s b' (l * l + t) g + b * y s b' (l * l + t) g)
          (D.NP * D.nb + rankOf D.lmlist i * D.nalpha + q)
        else 0) =
        a * (∑ t ∈ Finset.range (2 * l + 1),
            if D.lmlist i = l * l + t
            then D.xsol rs l (fun b' g => x s b' (l * l + t) g)
              (D.NP * D.nb + rankOf D.lmlist i * D.nalpha + q)
            else 0) +
          b * (∑ t ∈ Finset.range (2 * l + 1),
            if D.lmlist i = l * l + t
            then D.xsol rs l (fun b' g => y s b' (l * l + t) g)
              (D.NP * D.nb + rankOf D.lmlist i * D.nalpha + q)
            else 0) := by
    intro l _
    have h2 : ∀ t ∈ Finset.range (2 * l + 1),
        (if D.lmlist i = l * l + t
          then D.xsol rs l
            (fun b' g => a * x s b' (l * l + t) g + b * y s b' (l * l + t) g)
            (D.NP * D.nb + rankOf D.lmlist i * D.nalpha + q)
          else 0) =
          a * (if D.lmlist i = l * l + t
            then D.xsol rs l (fun b' g => x s b' (l * l + t) g)
              (D.NP * D.nb + rankOf D.lmlist i * D.nalpha + q)
            else 0) +
            b * (if D.lmlist i = l * l + t
              then D.xsol rs l (fun b' g => y s b' (l * l + t) g)
                (D.NP * D.nb + rankOf D.lmlist i * D.nalpha + q)
              else 0) := by
      intro t _
      rw [SolveData.xsol_linear]
      split <;> ring
    rw [Finset.sum_congr rfl h2, Finset.sum_add_distrib, ← Finset.mul_sum,
      ← Finset.mul_sum]
  rw [Finset.sum_congr rfl h, Finset.sum_add_distrib, ← Finset.mul_sum,
    ← Finset.mul_sum]

/-- C7: `get_c_and_df` is linear: applied to `a·x + b·y` it returns
`a` times its result on `x` plus `b` times its result on `y`, in both
output components (`c_sib` and `df_sLpb`), for both `realspace = true` and
`realspace = false` (the flag `rs` below). -/
theorem get_c_and_df_linear (D : SolveData) (rs : Bool) (a b : ℚ)
    (x y : ℕ → ℕ → ℕ → ℕ → ℚ) :
    (∀ s i q, D.cOut rs
        (fun s' b' L' g => a * x s' b' L' g + b * y s' b' L' g) s i q =
      a * D.cOut rs x s i q + b * D.cOut rs y s i q) ∧
    (∀ s L p bb, D.dfOut rs
        (fun s' b' L' g => a * x s' b' L' g + b * y s' b' L' g) s L p bb =
      a * D.dfOut rs x s L p bb + b * D.dfOut rs y s L p bb) :=
  ⟨fun s i q => SolveData.cOut_linear D rs a b x y s i q,
    fun s L p bb => SolveData.dfOut_linear D rs a b x y s L p bb⟩

/-! ## C1: discrete adjoint identity of the convolution engine

Both convolution paths of the source are linear pipelines whose
computational kernels live outside `src/` and are modelled from the spec
(§4.2–4.3).  Reciprocal path (`PAWCiderContribsRecip.calc_conv_skLq`):
`libcider.atc_reciprocal_convolution` multiplies each `(k, L, q)` element
pointwise by the analytic kernel factor built from the exponent ladder,
and the *same* routine is invoked in the forward
(`get_paw_conv_feature_terms`) and backward (`get_paw_conv_potential_terms`)
direction, with the `dvk` quadrature weights defining the k-space inner
product.  Orbital path (`PAWCiderContribsOrb.perform_convolution`):
quadrature-weighted analysis onto the orbital basis
(`convert_rad2orb_`, `rad2orb=True`), contraction with the precomputed
convolution-collection tensor (`ccl.multiply_atc_integrals`, which
contracts with the transposed tensor when `fwd=False`), unweighted
synthesis back (`rad2orb=False`).  Exact arithmetic (`ℚ`) subsumes the
claim's `1e-10` relative tolerance. -/

/-- The grid's quadrature-weighted inner product (`w_g`, resp. `dvk`),
over a flattened index. -/
def dotW (n : ℕ) (w a b : ℕ → ℚ) : ℚ :=
  ∑ g ∈ Finset.range n, w g * a g * b g

/-- Modelled from the spec: `calc_conv_skLq` / the `libcider`
reciprocal-space convolution (C code, not under `src/`): pointwise
multiplication by the analytic kernel factor `theta`, identical for the
forward and the backward call. -/
def recipConv (theta x : ℕ → ℚ) : ℕ → ℚ := fun g => theta g * x g

/-- `convert_rad2orb_` with `rad2orb=True`: quadrature-weighted analysis
of a radial field onto the orbital basis (the weights having been set on
the grids indexer in `_PAWCiderContribs.__init__`). -/
def analyz (ng : ℕ) (basis : ℕ → ℕ → ℚ) (w f : ℕ → ℚ) (u : ℕ) : ℚ :=
  ∑ g ∈ Finset.range ng, w g * basis u g * f g

/-- `convert_rad2orb_` with `rad2orb=False`: synthesis of orbital
coefficients on the radial grid. -/
def synth (nu : ℕ) (basis : ℕ → ℕ → ℚ) (c : ℕ → ℚ) (g : ℕ) : ℚ :=
  ∑ u ∈ Finset.range nu, basis u g * c u

/-- Modelled from the spec: `perform_convolution` with `fwd=True` —
analysis, contraction with the precomputed convolution tensor `M`
(`multiply_atc_integrals` composed with the interpolation transforms, all
outside `src/`), synthesis. -/
def orbConvFwd (ng nu : ℕ) (basis : ℕ → ℕ → ℚ) (w : ℕ → ℚ)
    (M : ℕ → ℕ → ℚ) (f : ℕ → ℚ) : ℕ → ℚ :=
  synth nu basis fun v => ∑ u ∈ Finset.range nu, M v u * analyz ng basis w f u

/-- Modelled from the spec: `perform_convolution` with `fwd=False` — the
same pipeline contracting with the transposed tensor. -/
def orbConvBwd (ng nu : ℕ) (basis : ℕ → ℕ → ℚ) (w : ℕ → ℚ)
    (M : ℕ → ℕ → ℚ) (f : ℕ → ℚ) : ℕ → ℚ :=
  synth nu basis fun u => ∑ v ∈ Finset.range nu, M v u * analyz ng basis w f v

theorem dotW_synth (n nu : ℕ) (w a : ℕ → ℚ) (basis : ℕ → ℕ → ℚ)
    (c : ℕ → ℚ) :
    dotW n w a (synth nu basis c) =
      ∑ u ∈ Finset.range nu, analyz n basis w a u * c u := by
  simp only [dotW, synth, analyz, Finset.mul_sum, Finset.sum_mul]
  rw [Finset.sum_comm]
  exact Finset.sum_congr rfl fun u _ => Finset.sum_congr rfl fun g _ => by ring

theorem dotW_synth_left (n nu : ℕ) (w b : ℕ → ℚ) (basis : ℕ → ℕ → ℚ)
    (c : ℕ → ℚ) :
    dotW n w (synth nu basis c) b =
      ∑ u ∈ Finset.range nu, c u * analyz n basis w b u := by
  simp only [dotW, synth, analyz, Finset.mul_sum, Finset.sum_mul]
  rw [Finset.sum_comm]
  exact Finset.sum_congr rfl fun u _ => Finset.sum_congr rfl fun g _ => by ring

/-- C1: the discrete adjoint identity
`<a, convolve(b, fwd)> = <convolve(a, not fwd), b>` under the grid's
quadrature weights, exactly (hence within the claimed `1e-10` relative
tolerance), for the reciprocal-space path (pointwise kernel multiply under
the `dvk` weights) and for the orbital-space path (analysis / tensor
contraction / synthesis, the backward direction contracting with the
transposed tensor). -/
theorem convolution_adjoint_identity (n nu : ℕ) (w theta a b : ℕ → ℚ)
    (basis : ℕ → ℕ → ℚ) (M : ℕ → ℕ → ℚ) :
    dotW n w a (recipConv theta b) = dotW n w (recipConv theta a) b ∧
    dotW n w a (orbConvFwd n nu basis w M b) =
      dotW n w (orbConvBwd n nu basis w M a) b := by
  constructor
  · simp only [dotW, recipConv]
    exact Finset.sum_congr rfl fun g _ => by ring
  · rw [show orbConvFwd n nu basis w M b =
        synth nu basis fun v =>
          ∑ u ∈ Finset.range nu, M v u * analyz n basis w b u from rfl,
      show orbConvBwd n nu basis w M a =
        synth nu basis fun u =>
          ∑ v ∈ Finset.range nu, M v u * analyz n basis w a v from rfl,
      dotW_synth, dotW_synth_left]
    simp only [Finset.mul_sum, Finset.sum_mul]
    rw [Finset.sum_comm]
    exact Finset.sum_congr rfl fun u _ =>
      Finset.sum_congr rfl fun v _ => by ring

/-! ## C2: the two backends are interchangeable; the flag selects one

`USE_GAUSSIAN_PAW_CONV = False` at module level, and
`PAWCiderContribs = PAWCiderContribsOrb if USE_GAUSSIAN_PAW_CONV else
PAWCiderContribsRecip`.  The computational cores of both backends (the
two-center Gaussian integral tables of `ConvolutionCollection` and the
`libcider` spherical-Bessel transform / reciprocal kernel multiply) are
outside `src/` and are modelled from the spec: the reciprocal backend
applies the explicit transform `T`, the pointwise kernel `theta`, and the
inverse transform `Tinv`; the orbital backend contracts with the
composite operator precomputed once at setup. -/

/-- `USE_GAUSSIAN_PAW_CONV = False` (module-level flag). -/
def USE_GAUSSIAN_PAW_CONV : Bool := false

/-- The two backend classes. -/
inductive ConvBackend where
  | orb
  | recip
  deriving DecidableEq, Repr

/-- `PAWCiderContribs = PAWCiderContribsOrb if USE_GAUSSIAN_PAW_CONV
else PAWCiderContribsRecip`. -/
def PAWCiderContribs : ConvBackend :=
  if USE_GAUSSIAN_PAW_CONV then ConvBackend.orb else ConvBackend.recip

/-- Dense matrix-vector contraction over a flattened index. -/
def matVec (n : ℕ) (M : ℕ → ℕ → ℚ) (v : ℕ → ℚ) (i : ℕ) : ℚ :=
  ∑ j ∈ Finset.range n, M i j * v j

/-- Modelled from the spec: the reciprocal-space backend
(`PAWCiderContribsRecip`): explicit spherical-Bessel transform `T` to
k-space, pointwise multiplication by the analytic kernel factor `theta`,
inverse transform `Tinv`. -/
def recipBackendApply (ng nk : ℕ) (T : ℕ → ℕ → ℚ) (theta : ℕ → ℚ)
    (Tinv : ℕ → ℕ → ℚ) (x : ℕ → ℚ) (g : ℕ) : ℚ :=
  ∑ k ∈ Finset.range nk, Tinv g k * (theta k * matVec ng T x k)

/-- Modelled from the spec: the precomputed two-center integral collection
of the orbital-space backend — the composite `Tinv ∘ diag(theta) ∘ T`
assembled once at setup. -/
def orbBackendMatrix (nk : ℕ) (T : ℕ → ℕ → ℚ) (theta : ℕ → ℚ)
    (Tinv : ℕ → ℕ → ℚ) (g g' : ℕ) : ℚ :=
  ∑ k ∈ Finset.range nk, Tinv g k * theta k * T k g'

/-- The orbital-space backend (`PAWCiderContribsOrb`): a single matrix
contraction with the precomputed collection. -/
def orbBackendApply (ng nk : ℕ) (T : ℕ → ℕ → ℚ) (theta : ℕ → ℚ)
    (Tinv : ℕ → ℕ → ℚ) (x : ℕ → ℚ) (g : ℕ) : ℚ :=
  matVec ng (orbBackendMatrix nk T theta Tinv) x g

/-- C2: the orbital-space backend (contraction with the precomputed
collection) and the reciprocal-space backend (explicit transform, kernel
multiply, inverse transform) agree on every input, and the module-level
flag `USE_GAUSSIAN_PAW_CONV` (here `false`) selects the backend:
`PAWCiderContribs` is the reciprocal one. -/
theorem conv_backends_interchangeable (ng nk : ℕ) (T Tinv : ℕ → ℕ → ℚ)
    (theta : ℕ → ℚ) :
    (∀ x g, orbBackendApply ng nk T theta Tinv x g =
      recipBackendApply ng nk T theta Tinv x g) ∧
    USE_GAUSSIAN_PAW_CONV = false ∧
    PAWCiderContribs = ConvBackend.recip := by
  refine ⟨fun x g => ?_, rfl, rfl⟩
  simp only [orbBackendApply, recipBackendApply, matVec, orbBackendMatrix,
    Finset.sum_mul, Finset.mul_sum]
  rw [Finset.sum_comm]
  exact Finset.sum_congr rfl fun k _ => Finset.sum_congr rfl fun j _ => by ring

/-! ## C9: the "v2" smooth-setup variant is dead code

`PSmoothSetup2.initialize_a2g` and `PSmoothSetup2.get_c_and_df` reference
names that are bound nowhere (neither among the module-level bindings of
`fast_atom_utils.py` nor among the functions' own assigned locals), and
`get_c_and_df` binds `nao` to the literal `Ellipsis` (`nao = ...`) before
using it as an `np.zeros` dimension.  The name environment below is
transcribed from the source file's import list and module-level
definitions; the assigned-local lists collect every name that is an
assignment target anywhere inside the respective function body (Python's
scoping rule). -/

/-- Module-level bindings of `fast_atom_utils.py`: the imported names and
the module's own definitions. -/
def moduleNames : List String :=
  ["ctypes", "np", "EquidistantRadialGridDescriptor", "R_nv", "Y_nL",
   "weight_n", "rnablaY_nLv", "spline", "interp1d", "cho_factor",
   "cho_solve", "get_hgbs_max_exps", "get_sigma", "AtomicGridsIndexer",
   "ATCBasis", "ConvolutionCollection", "get_etb_from_expnt_range",
   "get_gamma_lists_from_etb_list", "NLDFAuxiliaryPlan", "get_ccl_settings",
   "libcider", "AtomPASDWSlice", "SBTGridContainer",
   "construct_full_p_matrices", "get_delta_lpg", "get_delta_lpk", "get_dv",
   "get_dvk", "get_ffunc3", "get_p11_matrix", "get_p12_p21_matrix",
   "get_p22_matrix", "get_pfunc2_norm", "get_pfuncs_k", "get_phi_iabg",
   "get_phi_iabk", "DiffPAWXCCorrection", "calculate_cider_paw_correction",
   "USE_GAUSSIAN_PAW_CONV", "_interpc", "get_ag_indices",
   "FastAtomPASDWSlice", "_PAWCiderContribs", "PAWCiderContribsRecip",
   "PAWCiderContribsOrb", "PAWCiderContribs",
   "CiderRadialFeatureCalculator", "CiderRadialEnergyCalculator",
   "CiderRadialPotentialCalculator", "CiderRadialExpansion",
   "FastPASDWCiderKernel", "PASDWData", "PAugSetup", "PSmoothSetup",
   "PSmoothSetup2"]

/-- Names that are assignment targets somewhere in the body of
`PSmoothSetup2.initialize_a2g` (hence local to it). -/
def initA2gV2AssignedNames : List String :=
  ["nalpha", "rgd", "pfuncs_jg", "pfuncs_k", "p21_l_javb", "p22_l_jaja",
   "l", "nj", "nv", "j", "pfunc_g", "phi_abx", "phi_abg", "phisr_abg",
   "phisr_abx", "a", "tmp_ag", "tmp_ja", "phi_jabk", "REG11", "REG22",
   "FAC22", "phi_jabg", "p11_lpp", "p12_pbja", "p21_japb", "p22_ljaja",
   "p_l_ii", "c_and_l", "idn"]

/-- Names that are assignment targets somewhere in the body of
`PSmoothSetup2.get_c_and_df` (parameters included).  Note that `nao` is
among them: the source line `nao = ...` binds it to `Ellipsis`. -/
def getCAndDfV2AssignedNames : List String :=
  ["self", "y_sgLb", "realspace", "nspin", "ng", "Lmax", "nb", "rgd",
   "Nalpha_sm", "NP", "c_sib", "nao", "df_sub", "lloc_bas", "lloc_ao",
   "s", "l", "Lmin", "dL", "L", "b1", "b2", "b", "x", "N1", "ilist"]

/-- One Python global-name lookup: unbound means `NameError`. -/
def pyGlobal (nm : String) : Except PyErr Unit :=
  if nm ∈ moduleNames then Except.ok () else Except.error PyErr.nameError

/-- Execution of `PSmoothSetup2.initialize_a2g` up to its first failure:
after the `self.w_b` assignment, the next statement evaluates
`get_delta_lpg_v2(betas_lv, self.rcut_feat, self.slrgd, pmin)`; the
callee and the argument names `betas_lv`, `pmin` are bound nowhere, so the
first lookup raises `NameError` before anything is returned.  The `w`
argument stands for the instance data the first statement consumed. -/
def initA2gV2Run (w : ℚ) : Except PyErr ℚ := do
  let _ ← pyGlobal "get_delta_lpg_v2"
  let _ ← pyGlobal "betas_lv"
  let _ ← pyGlobal "pmin"
  pure w

/-- A Python value used as an `np.zeros` shape entry. -/
inductive PyVal where
  | num (n : ℕ)
  | ellipsis
  deriving DecidableEq, Repr

/-- `np.zeros` shape-entry check: an `Ellipsis` dimension raises
`TypeError`. -/
def zerosDim : PyVal → Except PyErr ℕ
  | .num n => .ok n
  | .ellipsis => .error .typeError

/-- Execution of `PSmoothSetup2.get_c_and_df` up to its first failure:
`c_sib = np.zeros((nspin, self.ni, Nalpha_sm))` succeeds, `nao = ...`
binds `nao` to `Ellipsis`, and `df_sub = np.zeros((nspin, nao, nb))` then
raises `TypeError`.  (Were execution to continue, the loop body would
also hit the unbound name `df_sLpb`.) -/
def getCAndDfV2Run (nspin ni nalpha nb : ℕ) : Except PyErr (ℕ × ℕ) := do
  let c1 ← zerosDim (PyVal.num nspin)
  let c2 ← zerosDim (PyVal.num ni)
  let c3 ← zerosDim (PyVal.num nalpha)
  let nao := PyVal.ellipsis
  let d1 ← zerosDim (PyVal.num nspin)
  let d2 ← zerosDim nao
  let d3 ← zerosDim (PyVal.num nb)
  pure (c1 * c2 * c3, d1 * d2 * d3)

/-- C9 counterexample: the claim says `PSmoothSetup2.get_c_and_df`
"references undefined names (nao, df_sLpb)", but `nao` is not an
undefined name there — the source binds it (`nao = ...`, to the
`Ellipsis` placeholder), unlike `df_sLpb`, which is indeed bound
nowhere. -/
theorem v2_nao_is_bound :
    "nao" ∈ getCAndDfV2AssignedNames ∧
      "df_sLpb" ∉ getCAndDfV2AssignedNames ∧ "df_sLpb" ∉ moduleNames := by
  decide

/-- C9 (amended): the v2 smooth-setup variant is dead code:
`PSmoothSetup2.initialize_a2g` raises an unbound-name error before
returning, for every input (it references `get_delta_lpg_v2`, `betas_lv`,
`pmin` — and later `lp1`, `dv_g`, `sr_part` — none of which is bound at
module level or assigned in its body), and `PSmoothSetup2.get_c_and_df`
fails on every call as well: its `nao` is bound only to the `Ellipsis`
placeholder, making the `np.zeros` shape invalid, and `df_sLpb` is a
genuinely unbound name; so no call into the v2 path can complete
successfully. -/
theorem v2_path_is_dead :
    (∀ w : ℚ, initA2gV2Run w = Except.error PyErr.nameError) ∧
    (∀ nspin ni nalpha nb : ℕ,
      getCAndDfV2Run nspin ni nalpha nb = Except.error PyErr.typeError) ∧
    (["get_delta_lpg_v2", "betas_lv", "pmin", "lp1", "dv_g",
        "sr_part"].all fun nm =>
      !(moduleNames.contains nm) && !(initA2gV2AssignedNames.contains nm))
      = true ∧
    ("df_sLpb" ∉ moduleNames ∧ "df_sLpb" ∉ getCAndDfV2AssignedNames) := by
  refine ⟨fun w => ?_, fun nspin ni nalpha nb => ?_, by decide, by decide⟩
  · simp [initA2gV2Run, pyGlobal, moduleNames, bind, Except.bind]
  · simp [getCAndDfV2Run, zerosDim, bind, Except.bind]

end CiderPress
